import Mathlib

/-!
Verification of the download-and-extract utilities of `monai/apps/utils.py`
(`check_hash`, `download_url`, `extractall`, `download_and_extract`).

The embedding is a shallow one:

* File contents are modelled as `List Nat` (abstract bytes); the filesystem is an
  association list from path strings to contents (`Fs`).  Directories are simply
  paths that are present in the map; only existence is ever tested for them.
* The network is an oracle (`Net`): the Content-Length probe, the per-chunk range
  responses, the `urlretrieve` result and the gdown result are all inputs.
  `none` for a request means the corresponding Python call raised `IOError`.
* The concrete digest algorithms (`hashlib.md5` / `hashlib.sha1`) are opaque to
  the source code, so they are a parameter `HashImpl` of every function.
* Every observable side effect other than filesystem mutation is recorded in an
  event trace: network accesses (`probe`, `rangeReq`, `urlretrieve`, `gdown`),
  actual digest computations (`hashCheck`, emitted exactly when `check_hash`
  reaches the point where Python opens the file), and archive decompression
  calls (`extractZip` / `extractTar`).
* Python exceptions become `Except Err`; each raise site of the source gets its
  own constructor.
-/

namespace MonaiApps

/-- Abstract file contents: a list of bytes. -/
abbrev Bytes := List Nat

/-- The filesystem: an association list from paths to file contents.
`os.path.exists` is membership, reading a file is `Fs.lookup`. -/
abbrev Fs := List (String × Bytes)

/-- `os.path.exists` / file read. -/
def Fs.lookup : Fs → String → Option Bytes
  | [], _ => none
  | e :: t, p => if e.1 = p then some e.2 else Fs.lookup t p

/-- Writing (or overwriting) a file. -/
def Fs.set (fs : Fs) (p : String) (c : Bytes) : Fs :=
  (p, c) :: fs

/-- Removing a file (the source half of `shutil.move`). -/
def Fs.del : Fs → String → Fs
  | [], _ => []
  | e :: t, p => if e.1 = p then Fs.del t p else e :: Fs.del t p

/-- Observable events of a run: the four kinds of network access issued by
`download_url`, the digest computations of `check_hash`, and the decompression
calls of `extractall`. -/
inductive Event where
  | probe (url : String)
  | rangeReq (first last : Nat)
  | urlretrieve (url : String)
  | gdown (url : String)
  | hashCheck (path : String)
  | extractZip (path : String)
  | extractTar (path : String)
deriving DecidableEq

/-- Events that correspond to network access. -/
def Event.isNetwork : Event → Bool
  | Event.probe _ => true
  | Event.rangeReq _ _ => true
  | Event.urlretrieve _ => true
  | Event.gdown _ => true
  | _ => false

/-- The exceptions raised by the source, one constructor per raise site.
`fileNotFound` is the `OSError` that `os.path.getsize` raises on a missing
path (reachable from the `finally:` block of the range branch). -/
inductive Err where
  | notImplemented
  | existingFileHashFailed
  | gdownUnavailable
  | gdownDownloadFailed
  | rangeHashFailed
  | contentLengthUnavailable
  | downloadedFileHashFailed
  | networkError
  | unsupportedExtension
  | compressedHashFailed
  | fileNotFound
deriving DecidableEq

/-- The two digest algorithms of `hashlib` used by the source, as abstract
functions from file contents to hex digest strings. -/
structure HashImpl where
  md5 : Bytes → String
  sha1 : Bytes → String

/-- `str.lower` (model over the character list of the string). -/
def pyLower (s : String) : String :=
  String.mk (s.data.map Char.toLower)

/-- `str.startswith`. -/
def pyStartswith (s pre : String) : Bool :=
  List.isPrefixOf pre.data s.data

/-- `str.endswith`. -/
def pyEndswith (s suf : String) : Bool :=
  List.isSuffixOf suf.data s.data

/-- Python truthiness of an optional string (`if hash_val:`): `None` and the
empty string are falsy, every other string is truthy. -/
def pyTruthy : Option String → Bool
  | none => false
  | some s => !(s == "")

/-- `os.path.basename`: the part of the path after the last slash. -/
def basename (p : String) : String :=
  String.mk ((p.data.reverse.takeWhile (fun c => c ≠ '/')).reverse)

/-- `s.split(".")[0]`: the characters before the first dot. -/
def takeUntilDot : List Char → List Char
  | [] => []
  | c :: cs => if c = '.' then [] else c :: takeUntilDot cs

/-- `check_hash(filepath, val, hash_type)` (utils.py lines 27-58).
Returns the boolean result together with the emitted events; the
`hashCheck` event marks the point where the source opens the file and
streams it through the digest.  Order of the source is kept: the `val is
None` escape hatch first, then algorithm-name validation (raising
`NotImplementedError` for unknown names), then the read (where any I/O
error is swallowed into `False`), then the digest comparison. -/
def check_hash (H : HashImpl) (fs : Fs) (filepath : String) (val : Option String)
    (hash_type : String) : Except Err Bool × List Event :=
  match val with
  | none => (Except.ok true, [])
  | some v =>
    if pyLower hash_type = "md5" then
      match Fs.lookup fs filepath with
      | none => (Except.ok false, [Event.hashCheck filepath])
      | some c => (Except.ok (v == H.md5 c), [Event.hashCheck filepath])
    else if pyLower hash_type = "sha1" then
      match Fs.lookup fs filepath with
      | none => (Except.ok false, [Event.hashCheck filepath])
      | some c => (Except.ok (v == H.sha1 c), [Event.hashCheck filepath])
    else (Except.error Err.notImplemented, [])

/-- The network oracle.  `none` anywhere means the corresponding call raised
`IOError`/`URLError`; for `gdownResult`, `none` means gdown left no file
behind. -/
structure Net where
  contentLength : Option Int
  chunk : Nat → Nat → Option Bytes
  retrieve : Option Bytes
  gdownResult : Option Bytes
  hasGdown : Bool

/-- The chunk loop of the range branch (utils.py lines 110-119):

`while first_byte < file_size:` compute
`last_byte = first_byte + block_size if first_byte + block_size < file_size
else file_size - 1`, issue a GET with `Range: bytes=first-last`, append the
response to the `.part` contents, advance `first_byte = last_byte + 1`.
An `IOError` on a chunk (modelled by `net.chunk` returning `none`) exits the
loop early, matching the `except IOError` handler.

The loop is written with a structural gas argument so that it computes by
kernel reduction; the caller passes `file_size.toNat + 1`, which is enough
gas because every iteration advances `first_byte` by at least one and the
loop stops as soon as `first_byte ≥ file_size`.  Result: the final `.part`
contents, the emitted events, and whether at least one chunk was appended
(on which the existence of the `.part` file depends when it did not exist
before the call). -/
def rangeLoop (net : Net) (block : Nat) (fsz : Int) :
    Nat → Nat → Bytes → Bytes × List Event × Bool
  | 0, _, part => (part, [], false)
  | g + 1, first, part =>
    if (first : Int) < fsz then
      let last : Nat :=
        if ((first + block : Nat) : Int) < fsz then first + block else (fsz - 1).toNat
      match net.chunk first last with
      | none => (part, [Event.rangeReq first last], false)
      | some data =>
        let r := rangeLoop net block fsz g (last + 1) (part ++ data)
        (r.1, Event.rangeReq first last :: r.2.1, true)
    else (part, [], false)

/-- The `finally:` block of the range branch (utils.py lines 122-128), together
with the `os.path.getsize(tmp_file_path)` it begins with: if the `.part` file
does not exist, `getsize` raises `OSError` (modelled as `Err.fileNotFound`);
otherwise, if its size equals `file_size`, run the internal hash gate
(`if hash_val and not check_hash(...)`, note the Python truthiness of
`hash_val`) and on success `shutil.move` the `.part` file onto `filepath`;
otherwise, if `file_size` is still `-1`, raise the Content-Length error;
otherwise fall through silently, leaving the `.part` file for a resume. -/
def rangeFinalize (H : HashImpl) (fs : Fs) (filepath : String) (hash_val : Option String)
    (hash_type : String) (file_size : Int) (ev : List Event) :
    Except Err Unit × Fs × List Event :=
  let tmp := filepath ++ ".part"
  match Fs.lookup fs tmp with
  | none => (Except.error Err.fileNotFound, fs, ev)
  | some part =>
    if file_size = (part.length : Int) then
      if pyTruthy hash_val then
        match check_hash H fs tmp hash_val hash_type with
        | (Except.error e, ev2) => (Except.error e, fs, ev ++ ev2)
        | (Except.ok false, ev2) => (Except.error Err.rangeHashFailed, fs, ev ++ ev2)
        | (Except.ok true, ev2) =>
          (Except.ok (), Fs.set (Fs.del fs tmp) filepath part, ev ++ ev2)
      else (Except.ok (), Fs.set (Fs.del fs tmp) filepath part, ev)
    else if file_size = -1 then (Except.error Err.contentLengthUnavailable, fs, ev)
    else (Except.ok (), fs, ev)

/-- The range branch of `download_url` (utils.py lines 100-128): resume offset
from the size of an existing `.part` file, Content-Length probe (an `IOError`
there is caught by the `except IOError` handler, leaving `file_size = -1` and
skipping the loop), the chunk loop, then the `finally:` block. -/
def rangeFetchStep (H : HashImpl) (net : Net) (fs : Fs) (url filepath : String)
    (hash_val : Option String) (hash_type : String) : Except Err Unit × Fs × List Event :=
  let block := 1024 * 1024
  let tmp := filepath ++ ".part"
  let first : Nat :=
    match Fs.lookup fs tmp with
    | some c => c.length
    | none => 0
  match net.contentLength with
  | none => rangeFinalize H fs filepath hash_val hash_type (-1) [Event.probe url]
  | some n =>
    let r := rangeLoop net block n (n.toNat + 1) first ((Fs.lookup fs tmp).getD [])
    let fs1 := if r.2.2 then Fs.set fs tmp r.1 else fs
    rangeFinalize H fs1 filepath hash_val hash_type n (Event.probe url :: r.2.1)

/-- URL pattern of the Google-Drive (gdown) branch. -/
def gdrivePre : String := "https://drive.google.com"

/-- URL pattern of the range-request branch. -/
def msdPre : String := "https://msd-for-monai.s3-us-west-2.amazonaws.com"

/-- The fetcher dispatch of `download_url` (utils.py lines 91-140): gdown for
Google-Drive URLs (raising if the dependency is missing, and raising if no
file exists afterwards), the range branch for the MSD host, and a plain
`urlretrieve` otherwise (whose network errors are re-raised). -/
def dispatchStep (H : HashImpl) (net : Net) (fs : Fs) (url filepath : String)
    (hash_val : Option String) (hash_type : String) : Except Err Unit × Fs × List Event :=
  if pyStartswith url gdrivePre then
    if !net.hasGdown then (Except.error Err.gdownUnavailable, fs, [])
    else
      match net.gdownResult with
      | some c => (Except.ok (), Fs.set fs filepath c, [Event.gdown url])
      | none => (Except.error Err.gdownDownloadFailed, fs, [Event.gdown url])
  else if pyStartswith url msdPre then
    rangeFetchStep H net fs url filepath hash_val hash_type
  else
    match net.retrieve with
    | some c => (Except.ok (), Fs.set fs filepath c, [Event.urlretrieve url])
    | none => (Except.error Err.networkError, fs, [Event.urlretrieve url])

/-- `download_url(url, filepath, hash_val, hash_type)` (utils.py lines 61-146):
if the destination exists, verify it (raising `RuntimeError` on failure,
modelled as `Err.existingFileHashFailed`) and return; otherwise dispatch to a
fetcher, and afterwards always run the final `check_hash` of `filepath`,
raising `RuntimeError` (`Err.downloadedFileHashFailed`) if it returns
`False`. -/
def download_url (H : HashImpl) (net : Net) (fs : Fs) (url filepath : String)
    (hash_val : Option String) (hash_type : String) : Except Err Unit × Fs × List Event :=
  if (Fs.lookup fs filepath).isSome then
    match check_hash H fs filepath hash_val hash_type with
    | (Except.error e, ev) => (Except.error e, fs, ev)
    | (Except.ok false, ev) => (Except.error Err.existingFileHashFailed, fs, ev)
    | (Except.ok true, ev) => (Except.ok (), fs, ev)
  else
    let r := dispatchStep H net fs url filepath hash_val hash_type
    match r.1 with
    | Except.error e => (Except.error e, r.2.1, r.2.2)
    | Except.ok _ =>
      match check_hash H r.2.1 filepath hash_val hash_type with
      | (Except.error e, ev2) => (Except.error e, r.2.1, r.2.2 ++ ev2)
      | (Except.ok false, ev2) => (Except.error Err.downloadedFileHashFailed, r.2.1, r.2.2 ++ ev2)
      | (Except.ok true, ev2) => (Except.ok (), r.2.1, r.2.2 ++ ev2)

/-- `extractall(filepath, output_dir, hash_val, hash_type)` (utils.py lines
149-184): skip everything if `output_dir/<basename up to first dot>` exists,
otherwise verify the archive's hash and dispatch on the suffix.  The actual
decompression is external library code (`zipfile` / `tarfile`); it is
recorded as an event, its writes into `output_dir` are not modelled. -/
def extractall (H : HashImpl) (fs : Fs) (filepath output_dir : String)
    (hash_val : Option String) (hash_type : String) : Except Err Unit × Fs × List Event :=
  let target_file := output_dir ++ "/" ++ String.mk (takeUntilDot (basename filepath).data)
  if (Fs.lookup fs target_file).isSome then (Except.ok (), fs, [])
  else
    match check_hash H fs filepath hash_val hash_type with
    | (Except.error e, ev) => (Except.error e, fs, ev)
    | (Except.ok false, ev) => (Except.error Err.compressedHashFailed, fs, ev)
    | (Except.ok true, ev) =>
      if pyEndswith filepath "zip" then
        (Except.ok (), fs, ev ++ [Event.extractZip filepath])
      else if pyEndswith filepath "tar" || pyEndswith filepath "tar.gz" then
        (Except.ok (), fs, ev ++ [Event.extractTar filepath])
      else (Except.error Err.unsupportedExtension, fs, ev)

/-- `download_and_extract` (utils.py lines 187-204): `download_url` then
`extractall`, exceptions propagating. -/
def download_and_extract (H : HashImpl) (net : Net) (fs : Fs)
    (url filepath output_dir : String) (hash_val : Option String) (hash_type : String) :
    Except Err Unit × Fs × List Event :=
  let r := download_url H net fs url filepath hash_val hash_type
  match r.1 with
  | Except.error e => (Except.error e, r.2.1, r.2.2)
  | Except.ok _ =>
    let r2 := extractall H r.2.1 filepath output_dir hash_val hash_type
    (r2.1, r2.2.1, r.2.2 ++ r2.2.2)

deriving instance DecidableEq for Except

/-! ### Helper lemmas about the filesystem model and `check_hash` -/

theorem append_part_ne (s : String) : s ++ ".part" ≠ s := by
  intro h
  have h2 := congrArg String.length h
  rw [String.length_append] at h2
  have h5 : (".part").length = 5 := rfl
  omega

theorem lookup_set_self (fs : Fs) (p : String) (c : Bytes) :
    Fs.lookup (Fs.set fs p c) p = some c := by
  simp [Fs.lookup, Fs.set]

theorem lookup_set_ne (fs : Fs) (p q : String) (c : Bytes) (h : p ≠ q) :
    Fs.lookup (Fs.set fs p c) q = Fs.lookup fs q := by
  simp [Fs.lookup, Fs.set, h]

theorem lookup_del_self (fs : Fs) (p : String) :
    Fs.lookup (Fs.del fs p) p = none := by
  induction fs with
  | nil => rfl
  | cons e t ih =>
    simp only [Fs.del]
    split
    · exact ih
    · simp only [Fs.lookup]
      split
      · rename_i h1 h2
        exact absurd h2 h1
      · exact ih

theorem lookup_del_ne (fs : Fs) (p q : String) (h : q ≠ p) :
    Fs.lookup (Fs.del fs p) q = Fs.lookup fs q := by
  induction fs with
  | nil => rfl
  | cons e t ih =>
    simp only [Fs.del]
    split
    · rename_i h1
      simp only [Fs.lookup]
      split
      · rename_i h2
        exact absurd (h1.symm.trans h2) (Ne.symm h)
      · exact ih
    · simp only [Fs.lookup]
      split
      · rfl
      · exact ih

/-- The events emitted by one `check_hash` call: nothing, or the single
digest-computation event for its file. -/
theorem check_hash_events (H : HashImpl) (fs : Fs) (p : String) (hv : Option String)
    (ht : String) :
    (check_hash H fs p hv ht).2 = [] ∨ (check_hash H fs p hv ht).2 = [Event.hashCheck p] := by
  rcases hv with _ | v
  · exact Or.inl rfl
  · simp only [check_hash]
    split
    · split <;> simp
    · split
      · split <;> simp
      · exact Or.inl rfl

/-- `check_hash` performs no network access. -/
theorem check_hash_no_network (H : HashImpl) (fs : Fs) (p : String) (hv : Option String)
    (ht : String) :
    ∀ e ∈ (check_hash H fs p hv ht).2, e.isNetwork = false := by
  intro e he
  rcases check_hash_events H fs p hv ht with h | h <;> rw [h] at he
  · simp at he
  · simp at he
    rw [he]
    rfl

/-- `check_hash` with a provided value and a supported algorithm name always
attempts the digest computation of its file. -/
theorem check_hash_events_of_alg (H : HashImpl) (fs : Fs) (p v ht : String)
    (h : pyLower ht = "md5" ∨ pyLower ht = "sha1") :
    (check_hash H fs p (some v) ht).2 = [Event.hashCheck p] := by
  have hms : ("sha1" : String) ≠ "md5" := by decide
  rcases h with h | h <;>
    cases hfs : Fs.lookup fs p <;>
      simp [check_hash, h, hfs, hms]

/-- A successful `check_hash` against a provided expected value implies the
file exists (an unreadable file yields `False`). -/
theorem check_hash_true_exists (H : HashImpl) (fs : Fs) (p v ht : String)
    (h : (check_hash H fs p (some v) ht).1 = Except.ok true) :
    (Fs.lookup fs p).isSome = true := by
  cases hfs : Fs.lookup fs p with
  | some c => rfl
  | none =>
    exfalso
    simp only [check_hash, hfs] at h
    split at h
    · simp at h
    · split at h <;> simp at h

/-! ### Concrete instances used by witnesses and counterexamples -/

/-- A concrete digest implementation for concrete runs (the real MD5/SHA1 are
external to the source and are a parameter everywhere). -/
def Hc : HashImpl :=
  { md5 := fun c => "m" ++ toString c.length, sha1 := fun c => "s" ++ toString c.length }

/-- A network where every request fails. -/
def netNone : Net :=
  { contentLength := none, chunk := fun _ _ => none, retrieve := none,
    gdownResult := none, hasGdown := false }

/-- A network whose Content-Length probe answers `n` and whose chunk requests
all fail. -/
def netProbe (n : Int) : Net :=
  { contentLength := some n, chunk := fun _ _ => none, retrieve := none,
    gdownResult := none, hasGdown := false }

/-- A network whose probe answers `n` and whose chunk requests all return `d`. -/
def netChunks (n : Int) (d : Bytes) : Net :=
  { contentLength := some n, chunk := fun _ _ => some d, retrieve := none,
    gdownResult := none, hasGdown := false }

/-- A network where only the plain `urlretrieve` download works, returning `d`. -/
def netRetrieve (d : Bytes) : Net :=
  { contentLength := none, chunk := fun _ _ => none, retrieve := some d,
    gdownResult := none, hasGdown := false }

/-- A range-branch URL. -/
def urlMsd : String := msdPre ++ "/Task01.tar"

/-- A generic URL handled by the plain `urlretrieve` branch. -/
def urlPlain : String := "https://example.org/data.zip"

/-! ### Claims -/

/-- Claim C10: for every filepath and every `hash_type` string (including
unsupported names such as "crc32"), `check_hash` called with an absent
expected value returns `True` without raising `NotImplementedError` and
without opening the file (empty event trace): the algorithm-name validation
is only reached when an expected value is provided. -/
theorem check_hash_none_skips_everything (H : HashImpl) (fs : Fs) (p ht : String) :
    check_hash H fs p none ht = (Except.ok true, []) := rfl

/-- Claim C7: for every `extractall` call where a file or directory named
after the archive's base filename up to its first dot already exists under
`output_dir`, the call returns successfully with the filesystem unchanged and
an empty event trace — no hash verification of the archive and no
decompression work. -/
theorem extractall_skips_when_target_exists (H : HashImpl) (fs : Fs)
    (filepath output_dir : String) (hash_val : Option String) (ht : String) (c : Bytes)
    (h : Fs.lookup fs (output_dir ++ "/" ++ String.mk (takeUntilDot (basename filepath).data))
      = some c) :
    extractall H fs filepath output_dir hash_val ht = (Except.ok (), fs, []) := by
  simp [extractall, h]

/-- Witness for C7 at a concrete input: `/out/data` exists, so extracting
`/tmp/data.tar.gz` into `/out` is skipped. -/
theorem extractall_skips_witness :
    Fs.lookup [("/out/data", [])]
        ("/out" ++ "/" ++ String.mk (takeUntilDot (basename "/tmp/data.tar.gz").data))
      = some [] ∧
    extractall Hc [("/out/data", [])] "/tmp/data.tar.gz" "/out" (some "x") "md5"
      = (Except.ok (), [("/out/data", [])], []) :=
  ⟨by decide,
   extractall_skips_when_target_exists Hc [("/out/data", [])] "/tmp/data.tar.gz" "/out"
     (some "x") "md5" [] (by decide)⟩

/-- Claim C8 counterexample: requesting `hash_type = "crc32"` does NOT always
raise before network access.  With no pre-existing destination file, the
simple fetcher runs first: the trace of this failing run contains the
`urlretrieve` network event, and the `NotImplementedError` is only raised at
the final verification afterwards.  (With `hash_val = None`, no error is
raised at all, see C10.) -/
theorem crc32_network_before_raise :
    (download_url Hc (netRetrieve [1]) [] urlPlain "/d/a.zip" (some "x") "crc32").1
      = Except.error Err.notImplemented ∧
    Event.urlretrieve urlPlain
      ∈ (download_url Hc (netRetrieve [1]) [] urlPlain "/d/a.zip" (some "x") "crc32").2.2 ∧
    Event.isNetwork (Event.urlretrieve urlPlain) = true := by
  decide

/-- Claim C8 (amended): for a request with an unsupported algorithm name where
an expected hash value is provided and the destination file already exists,
`download_url` raises `NotImplementedError` with an empty event trace — hence
before any network access. -/
theorem crc32_existing_no_network (H : HashImpl) (net : Net) (fs : Fs)
    (url p v ht : String) (c : Bytes)
    (hex : Fs.lookup fs p = some c)
    (h1 : pyLower ht ≠ "md5") (h2 : pyLower ht ≠ "sha1") :
    download_url H net fs url p (some v) ht = (Except.error Err.notImplemented, fs, []) := by
  unfold download_url
  rw [hex]
  simp [check_hash, h1, h2]

/-- Witness for the amended C8 at a concrete input. -/
theorem crc32_existing_witness :
    Fs.lookup [("/d/f", [1])] "/d/f" = some [1] ∧
    pyLower "crc32" ≠ "md5" ∧ pyLower "crc32" ≠ "sha1" ∧
    download_url Hc netNone [("/d/f", [1])] urlPlain "/d/f" (some "x") "crc32"
      = (Except.error Err.notImplemented, [("/d/f", [1])], []) :=
  ⟨by decide, by decide, by decide,
   crc32_existing_no_network Hc netNone [("/d/f", [1])] urlPlain "/d/f" "x" "crc32" [1]
     (by decide) (by decide) (by decide)⟩


/-- Claim C5 counterexample: with the expected hash provided as the EMPTY
string, Python's `if hash_val and not check_hash(...)` skips the internal
verification (empty string is falsy), so even though verification of the
completed `.part` file fails (first conjunct), the file IS renamed onto the
destination path (the `.part` file is gone and the destination exists), and
the failure only surfaces afterwards as the downloaded-file hash error. -/
theorem empty_hash_renames_despite_mismatch :
    (check_hash Hc [("/d/f.part", [1, 2])] "/d/f.part" (some "") "md5").1 = Except.ok false ∧
    (download_url Hc (netProbe 2) [("/d/f.part", [1, 2])] urlMsd "/d/f" (some "") "md5").1
      = Except.error Err.downloadedFileHashFailed ∧
    Fs.lookup (download_url Hc (netProbe 2) [("/d/f.part", [1, 2])] urlMsd "/d/f"
        (some "") "md5").2.1 "/d/f.part" = none ∧
    Fs.lookup (download_url Hc (netProbe 2) [("/d/f.part", [1, 2])] urlMsd "/d/f"
        (some "") "md5").2.1 "/d/f" = some [1, 2] := by
  decide

/-- Claim C5 (amended): at range-fetch finalization with the `.part` size
equal to the probed total, and a NON-EMPTY expected hash: a failing
verification raises the hash error and leaves the `.part` file in place (not
renamed, destination untouched); a passing verification renames `.part` onto
the destination.  With no expected hash (None) the rename happens without
verification. -/
theorem rangeFinalize_hash_gate (H : HashImpl) (fs : Fs) (p v ht : String)
    (fsz : Int) (ev : List Event) (part : Bytes)
    (htmp : Fs.lookup fs (p ++ ".part") = some part)
    (hsz : fsz = (part.length : Int)) (hv : v ≠ "") :
    ((check_hash H fs (p ++ ".part") (some v) ht).1 = Except.ok false →
      (rangeFinalize H fs p (some v) ht fsz ev).1 = Except.error Err.rangeHashFailed ∧
      Fs.lookup (rangeFinalize H fs p (some v) ht fsz ev).2.1 (p ++ ".part") = some part ∧
      Fs.lookup (rangeFinalize H fs p (some v) ht fsz ev).2.1 p = Fs.lookup fs p) ∧
    ((check_hash H fs (p ++ ".part") (some v) ht).1 = Except.ok true →
      (rangeFinalize H fs p (some v) ht fsz ev).1 = Except.ok () ∧
      Fs.lookup (rangeFinalize H fs p (some v) ht fsz ev).2.1 p = some part ∧
      Fs.lookup (rangeFinalize H fs p (some v) ht fsz ev).2.1 (p ++ ".part") = none) ∧
    ((rangeFinalize H fs p none ht fsz ev).1 = Except.ok () ∧
      Fs.lookup (rangeFinalize H fs p none ht fsz ev).2.1 p = some part ∧
      Fs.lookup (rangeFinalize H fs p none ht fsz ev).2.1 (p ++ ".part") = none) := by
  have hpt : pyTruthy (some v) = true := by
    simp [pyTruthy, hv]
  have hpq : p ≠ p ++ ".part" := Ne.symm (append_part_ne p)
  rcases hch : check_hash H fs (p ++ ".part") (some v) ht with ⟨r, ev2⟩
  refine ⟨?_, ?_, ?_⟩
  · intro hc
    have hr : r = Except.ok false := hc
    subst hr
    simp [rangeFinalize, htmp, hsz, hpt, hch]
  · intro hc
    have hr : r = Except.ok true := hc
    subst hr
    simp [rangeFinalize, htmp, hsz, hpt, hch, lookup_set_self,
      lookup_set_ne _ _ _ _ hpq, lookup_del_self]
  · simp [rangeFinalize, htmp, hsz, pyTruthy, lookup_set_self,
      lookup_set_ne _ _ _ _ hpq, lookup_del_self]

/-- Witness for the amended C5 at a concrete input: `.part` holds one byte,
the probed size matches, the expected hash "zz" does not match the digest. -/
theorem rangeFinalize_hash_gate_witness :
    Fs.lookup [("/x.part", [3])] ("/x" ++ ".part") = some [3] ∧
    (1 : Int) = (([3] : Bytes).length : Int) ∧ ("zz" : String) ≠ "" ∧
    (((check_hash Hc [("/x.part", [3])] ("/x" ++ ".part") (some "zz") "md5").1 = Except.ok false →
      (rangeFinalize Hc [("/x.part", [3])] "/x" (some "zz") "md5" 1 []).1
        = Except.error Err.rangeHashFailed ∧
      Fs.lookup (rangeFinalize Hc [("/x.part", [3])] "/x" (some "zz") "md5" 1 []).2.1
          ("/x" ++ ".part") = some [3] ∧
      Fs.lookup (rangeFinalize Hc [("/x.part", [3])] "/x" (some "zz") "md5" 1 []).2.1 "/x"
        = Fs.lookup [("/x.part", [3])] "/x") ∧
    ((check_hash Hc [("/x.part", [3])] ("/x" ++ ".part") (some "zz") "md5").1 = Except.ok true →
      (rangeFinalize Hc [("/x.part", [3])] "/x" (some "zz") "md5" 1 []).1 = Except.ok () ∧
      Fs.lookup (rangeFinalize Hc [("/x.part", [3])] "/x" (some "zz") "md5" 1 []).2.1 "/x"
        = some [3] ∧
      Fs.lookup (rangeFinalize Hc [("/x.part", [3])] "/x" (some "zz") "md5" 1 []).2.1
        ("/x" ++ ".part") = none) ∧
    ((rangeFinalize Hc [("/x.part", [3])] "/x" none "md5" 1 []).1 = Except.ok () ∧
      Fs.lookup (rangeFinalize Hc [("/x.part", [3])] "/x" none "md5" 1 []).2.1 "/x"
        = some [3] ∧
      Fs.lookup (rangeFinalize Hc [("/x.part", [3])] "/x" none "md5" 1 []).2.1
        ("/x" ++ ".part") = none)) :=
  ⟨by decide, by decide, by decide,
   rangeFinalize_hash_gate Hc [("/x.part", [3])] "/x" "zz" "md5" 1 [] [3]
     (by decide) (by decide) (by decide)⟩

/-- Claim C6 counterexample: range fetch, metadata request fails, and no
`.part` file exists: finalization raises the missing-file error of
`os.path.getsize(tmp_file_path)` (the `finally:` block calls it
unconditionally), NOT ContentLengthUnavailable. -/
theorem missing_part_file_error :
    (download_url Hc netNone [] urlMsd "/d/f" none "md5").1 = Except.error Err.fileNotFound ∧
    (Except.error Err.fileNotFound : Except Err Unit)
      ≠ Except.error Err.contentLengthUnavailable := by
  decide

/-- Claim C6 (amended): for a range fetch where the total content length was
never obtained (the probe failed, or the server answered without a
Content-Length so the value stays -1) AND a `.part` file exists at
finalization, `download_url` raises the Content-Length error.  (With no
`.part` file, `os.path.getsize` in the `finally:` block raises a missing-file
error first.) -/
theorem range_no_content_length (H : HashImpl) (net : Net) (fs : Fs)
    (url p : String) (hash_val : Option String) (ht : String) (part : Bytes)
    (hg : pyStartswith url gdrivePre = false)
    (hm : pyStartswith url msdPre = true)
    (hne : Fs.lookup fs p = none)
    (htmp : Fs.lookup fs (p ++ ".part") = some part)
    (hcl : net.contentLength = none ∨ net.contentLength = some (-1)) :
    (download_url H net fs url p hash_val ht).1 = Except.error Err.contentLengthUnavailable := by
  have hn1 : ¬((-1 : Int) = (part.length : Int)) := by omega
  have hfin : ∀ ev : List Event,
      rangeFinalize H fs p hash_val ht (-1) ev
        = (Except.error Err.contentLengthUnavailable, fs, ev) := by
    intro ev
    simp [rangeFinalize, htmp, hn1]
  have hstep : rangeFetchStep H net fs url p hash_val ht
      = (Except.error Err.contentLengthUnavailable, fs, [Event.probe url]) := by
    rcases hcl with hcl | hcl
    · simp [rangeFetchStep, hcl, hfin]
    · have hlt : ¬((part.length : Int) < -1) := by omega
      simp [rangeFetchStep, hcl, htmp, rangeLoop, hlt, hfin]
  unfold download_url
  rw [hne]
  simp [dispatchStep, hg, hm, hstep]

/-- Witness for the amended C6 at a concrete input (probe fails, `.part`
present). -/
theorem range_no_content_length_witness :
    pyStartswith urlMsd gdrivePre = false ∧ pyStartswith urlMsd msdPre = true ∧
    Fs.lookup [("/d/f.part", [9])] "/d/f" = none ∧
    Fs.lookup [("/d/f.part", [9])] ("/d/f" ++ ".part") = some [9] ∧
    (download_url Hc netNone [("/d/f.part", [9])] urlMsd "/d/f" none "md5").1
      = Except.error Err.contentLengthUnavailable :=
  ⟨by decide, by decide, by decide, by decide,
   range_no_content_length Hc netNone [("/d/f.part", [9])] urlMsd "/d/f" none "md5" [9]
     (by decide) (by decide) (by decide) (by decide) (Or.inl rfl)⟩


/-! ### Lemmas about the chunk loop and the finalize step -/

/-- Every range request issued by the chunk loop starts at or after the
offset the loop was entered with: the loop never goes back before its resume
offset. -/
theorem rangeLoop_req_ge (net : Net) (block : Nat) (fsz : Int) :
    ∀ (gas first : Nat) (part : Bytes) (a b : Nat),
      Event.rangeReq a b ∈ (rangeLoop net block fsz gas first part).2.1 → first ≤ a := by
  intro gas
  induction gas with
  | zero =>
    intro first part a b h
    simp [rangeLoop] at h
  | succ g ih =>
    intro first part a b h
    simp only [rangeLoop] at h
    split at h
    · rename_i hlt
      split at h
      · rename_i hch
        simp only [List.mem_singleton, Event.rangeReq.injEq] at h
        omega
      · rename_i data hch
        simp only [List.mem_cons, Event.rangeReq.injEq] at h
        rcases h with ⟨h1, h2⟩ | h
        · omega
        · have ha := ih _ _ _ _ h
          have hle : first ≤ (if ((first + block : Nat) : Int) < fsz
              then first + block else (fsz - 1).toNat) := by
            split
            · omega
            · omega
          omega
    · simp at h

/-- If the loop condition holds on entry, the first event of the chunk loop is
the range request starting exactly at the resume offset. -/
theorem rangeLoop_first_req (net : Net) (block : Nat) (fsz : Int) (g first : Nat)
    (part : Bytes) (hlt : (first : Int) < fsz) :
    ∃ rest, (rangeLoop net block fsz (g + 1) first part).2.1
      = Event.rangeReq first
          (if ((first + block : Nat) : Int) < fsz then first + block
           else (fsz - 1).toNat) :: rest := by
  simp only [rangeLoop, if_pos hlt]
  rcases hch : net.chunk first
      (if ((first + block : Nat) : Int) < fsz then first + block else (fsz - 1).toNat)
    with _ | data <;> simp [hch]

/-- If the chunk loop reports that nothing was appended, the `.part` contents
it returns are its input contents. -/
theorem rangeLoop_shape (net : Net) (block : Nat) (fsz : Int) (gas first : Nat)
    (part : Bytes) :
    (rangeLoop net block fsz gas first part).2.2 = true ∨
    (rangeLoop net block fsz gas first part).1 = part := by
  cases gas with
  | zero => exact Or.inr rfl
  | succ g =>
    simp only [rangeLoop]
    split
    · rcases hch : net.chunk first
          (if ((first + block : Nat) : Int) < fsz then first + block else (fsz - 1).toNat)
        with _ | data <;> simp [hch]
    · exact Or.inr rfl

/-- The trace of the finalize step is its input trace, possibly followed by
the single digest-computation event of the internal hash gate. -/
theorem rangeFinalize_trace (H : HashImpl) (fs : Fs) (p : String) (hv : Option String)
    (ht : String) (fsz : Int) (ev : List Event) :
    (rangeFinalize H fs p hv ht fsz ev).2.2 = ev ∨
    (rangeFinalize H fs p hv ht fsz ev).2.2 = ev ++ [Event.hashCheck (p ++ ".part")] := by
  rcases hch : check_hash H fs (p ++ ".part") hv ht with ⟨r, ev2⟩
  have hev2 : ev2 = [] ∨ ev2 = [Event.hashCheck (p ++ ".part")] := by
    have h := check_hash_events H fs (p ++ ".part") hv ht
    rw [hch] at h
    exact h
  simp only [rangeFinalize, hch]
  split
  · exact Or.inl rfl
  · split
    · split
      · rcases r with e | b
        · rcases hev2 with h | h <;> simp [h]
        · cases b
          · rcases hev2 with h | h <;> simp [h]
          · rcases hev2 with h | h <;> simp [h]
      · exact Or.inl rfl
    · split
      · exact Or.inl rfl
      · exact Or.inl rfl

/-- Membership in the finalize-step trace for non-hash-check events is
membership in the input trace. -/
theorem mem_rangeFinalize_trace {e : Event} (hne : ∀ q, e ≠ Event.hashCheck q)
    (H : HashImpl) (fs : Fs) (p : String) (hv : Option String) (ht : String)
    (fsz : Int) (ev : List Event) :
    e ∈ (rangeFinalize H fs p hv ht fsz ev).2.2 ↔ e ∈ ev := by
  rcases rangeFinalize_trace H fs p hv ht fsz ev with h | h <;> rw [h]
  simp [List.mem_append, hne]

/-- Claim C3: for a range fetch with an existing `.part` file of length `k`,
`0 < k <` total, the RangeFetcher resumes at offset `k`: its first range
request starts exactly at byte `k` (with the block-sized or final-byte upper
bound of the source), and every range request it ever issues starts at or
after `k` — no byte of `[0, k)` is ever requested. -/
theorem rangeFetcher_resumes_at_offset (H : HashImpl) (net : Net) (fs : Fs)
    (url p : String) (hash_val : Option String) (ht : String) (part : Bytes) (n : Int)
    (htmp : Fs.lookup fs (p ++ ".part") = some part)
    (_hk : 0 < part.length)
    (hcl : net.contentLength = some n)
    (hlt : (part.length : Int) < n) :
    Event.rangeReq part.length
        (if ((part.length + 1024 * 1024 : Nat) : Int) < n then part.length + 1024 * 1024
         else (n - 1).toNat)
      ∈ (rangeFetchStep H net fs url p hash_val ht).2.2 ∧
    ∀ a b, Event.rangeReq a b ∈ (rangeFetchStep H net fs url p hash_val ht).2.2 →
      part.length ≤ a := by
  have hmemtr : ∀ e : Event, (∀ q, e ≠ Event.hashCheck q) →
      (e ∈ (rangeFetchStep H net fs url p hash_val ht).2.2 ↔
        e ∈ Event.probe url
            :: (rangeLoop net (1024 * 1024) n (n.toNat + 1) part.length part).2.1) := by
    intro e he
    simp only [rangeFetchStep, hcl, htmp, Option.getD_some]
    exact mem_rangeFinalize_trace he _ _ _ _ _ _ _
  constructor
  · obtain ⟨rest, hr⟩ := rangeLoop_first_req net (1024 * 1024) n n.toNat part.length part hlt
    rw [hmemtr _ (by intro q; simp)]
    rw [hr]
    simp
  · intro a b hm
    rw [hmemtr _ (by intro q; simp)] at hm
    simp only [List.mem_cons] at hm
    rcases hm with hm | hm
    · exact absurd hm (by simp)
    · exact rangeLoop_req_ge net (1024 * 1024) n _ _ _ a b hm

/-- Witness for C3 at a concrete input: `.part` holds one byte, total is 3,
so the single issued request is for bytes 1 to 2. -/
theorem rangeFetcher_resumes_witness :
    Fs.lookup [("/d/f.part", [9])] ("/d/f" ++ ".part") = some [9] ∧
    0 < ([9] : Bytes).length ∧
    (netChunks 3 [5, 6]).contentLength = some 3 ∧
    ((([9] : Bytes).length : Int) < 3) ∧
    (Event.rangeReq ([9] : Bytes).length
        (if ((([9] : Bytes).length + 1024 * 1024 : Nat) : Int) < 3
         then ([9] : Bytes).length + 1024 * 1024 else ((3 : Int) - 1).toNat)
      ∈ (rangeFetchStep Hc (netChunks 3 [5, 6]) [("/d/f.part", [9])] urlMsd "/d/f"
          none "md5").2.2 ∧
    ∀ a b, Event.rangeReq a b
        ∈ (rangeFetchStep Hc (netChunks 3 [5, 6]) [("/d/f.part", [9])] urlMsd "/d/f"
            none "md5").2.2 →
      ([9] : Bytes).length ≤ a) :=
  ⟨by decide, by decide, by decide, by decide,
   rangeFetcher_resumes_at_offset Hc (netChunks 3 [5, 6]) [("/d/f.part", [9])] urlMsd "/d/f"
     none "md5" [9] 3 (by decide) (by decide) (by decide) (by decide)⟩

/-- Claim C4: for a range fetch with an existing `.part` file of length
exactly the probed total, the chunk loop body never executes — no range
request appears anywhere in the RangeFetcher trace — and finalization
proceeds directly to the hash gate and the rename: with no (or an empty,
hence falsy) expected hash the `.part` file is renamed onto the destination
unconditionally, and with a provided expected hash that verifies, it is
renamed as well.  This is what makes a restart after a
crash-before-finalize idempotent. -/
theorem rangeFetcher_complete_part (H : HashImpl) (net : Net) (fs : Fs)
    (url p : String) (hash_val : Option String) (ht : String) (part : Bytes)
    (htmp : Fs.lookup fs (p ++ ".part") = some part)
    (hcl : net.contentLength = some (part.length : Int)) :
    (∀ a b, Event.rangeReq a b ∉ (rangeFetchStep H net fs url p hash_val ht).2.2) ∧
    (pyTruthy hash_val = false →
      rangeFetchStep H net fs url p hash_val ht
        = (Except.ok (), Fs.set (Fs.del fs (p ++ ".part")) p part, [Event.probe url])) ∧
    (∀ v, hash_val = some v →
      (check_hash H fs (p ++ ".part") (some v) ht).1 = Except.ok true →
      (rangeFetchStep H net fs url p hash_val ht).1 = Except.ok () ∧
      Fs.lookup (rangeFetchStep H net fs url p hash_val ht).2.1 p = some part ∧
      Fs.lookup (rangeFetchStep H net fs url p hash_val ht).2.1 (p ++ ".part") = none) := by
  have hnlt : ¬((part.length : Int) < (part.length : Int)) := by omega
  have hloop : rangeLoop net (1024 * 1024) (part.length : Int)
      ((part.length : Int).toNat + 1) part.length part = (part, [], false) := by
    simp only [rangeLoop]
    rw [if_neg hnlt]
  have hloop2 : rangeLoop net 1048576 (part.length : Int)
      (part.length + 1) part.length part = (part, [], false) := by
    have h2 : (1048576 : Nat) = 1024 * 1024 := rfl
    have h3 : part.length + 1 = ((part.length : Int)).toNat + 1 := by
      rw [Int.toNat_natCast]
    rw [h2, h3]
    exact hloop
  have hstep : rangeFetchStep H net fs url p hash_val ht
      = rangeFinalize H fs p hash_val ht (part.length : Int) [Event.probe url] := by
    simp [rangeFetchStep, hcl, htmp, hloop, hloop2]
  have hpq : p ≠ p ++ ".part" := Ne.symm (append_part_ne p)
  refine ⟨?_, ?_, ?_⟩
  · intro a b hm
    rw [hstep] at hm
    rw [mem_rangeFinalize_trace (by intro q; simp) _ _ _ _ _ _ _] at hm
    simp at hm
  · intro hf
    rw [hstep]
    simp [rangeFinalize, htmp, hf]
  · intro v hveq hc
    subst hveq
    rw [hstep]
    by_cases hty : pyTruthy (some v) = true
    · rcases hch : check_hash H fs (p ++ ".part") (some v) ht with ⟨r, ev2⟩
      rw [hch] at hc
      have hr : r = Except.ok true := hc
      subst hr
      simp [rangeFinalize, htmp, hty, hch, lookup_set_self,
        lookup_set_ne _ _ _ _ hpq, lookup_del_self]
    · have hty2 : pyTruthy (some v) = false := by
        cases h : pyTruthy (some v)
        · rfl
        · exact absurd h hty
      simp [rangeFinalize, htmp, hty2, lookup_set_self,
        lookup_set_ne _ _ _ _ hpq, lookup_del_self]

/-- Witness for C4 at a concrete input: `.part` holds the complete two bytes,
no expected hash; no range request is issued and the file is promoted. -/
theorem rangeFetcher_complete_part_witness :
    Fs.lookup [("/d/f.part", [1, 2])] ("/d/f" ++ ".part") = some [1, 2] ∧
    (netProbe 2).contentLength = some (([1, 2] : Bytes).length : Int) ∧
    ((∀ a b, Event.rangeReq a b
        ∉ (rangeFetchStep Hc (netProbe 2) [("/d/f.part", [1, 2])] urlMsd "/d/f"
            none "md5").2.2) ∧
    (pyTruthy none = false →
      rangeFetchStep Hc (netProbe 2) [("/d/f.part", [1, 2])] urlMsd "/d/f" none "md5"
        = (Except.ok (),
            Fs.set (Fs.del [("/d/f.part", [1, 2])] ("/d/f" ++ ".part")) "/d/f" [1, 2],
            [Event.probe urlMsd])) ∧
    (∀ v, (none : Option String) = some v →
      (check_hash Hc [("/d/f.part", [1, 2])] ("/d/f" ++ ".part") (some v) "md5").1
        = Except.ok true →
      (rangeFetchStep Hc (netProbe 2) [("/d/f.part", [1, 2])] urlMsd "/d/f"
          none "md5").1 = Except.ok () ∧
      Fs.lookup (rangeFetchStep Hc (netProbe 2) [("/d/f.part", [1, 2])] urlMsd "/d/f"
          none "md5").2.1 "/d/f" = some [1, 2] ∧
      Fs.lookup (rangeFetchStep Hc (netProbe 2) [("/d/f.part", [1, 2])] urlMsd "/d/f"
          none "md5").2.1 ("/d/f" ++ ".part") = none)) :=
  ⟨by decide, by decide,
   rangeFetcher_complete_part Hc (netProbe 2) [("/d/f.part", [1, 2])] urlMsd "/d/f"
     none "md5" [1, 2] (by decide) (by decide)⟩

/-- Claim C9: a range fetch with no expected hash whose chunk loop exits
early, leaving the `.part` file shorter than the known total, returns
successfully from `download_url` — no error is raised — even though no file
exists at the destination path afterwards: the final verification trivially
passes because the expected hash is absent. -/
theorem range_incomplete_silent (H : HashImpl) (net : Net) (fs : Fs)
    (url p ht : String) (part : Bytes) (n : Int)
    (hg : pyStartswith url gdrivePre = false)
    (hm : pyStartswith url msdPre = true)
    (hne : Fs.lookup fs p = none)
    (htmp : Fs.lookup fs (p ++ ".part") = some part)
    (hcl : net.contentLength = some n)
    (hn : 0 ≤ n)
    (hshort : ((rangeLoop net (1024 * 1024) n (n.toNat + 1) part.length part).1.length : Int)
      ≠ n) :
    (download_url H net fs url p none ht).1 = Except.ok () ∧
    Fs.lookup (download_url H net fs url p none ht).2.1 p = none := by
  have htmpne : p ++ ".part" ≠ p := append_part_ne p
  rcases hloop : rangeLoop net (1024 * 1024) n (n.toNat + 1) part.length part
    with ⟨pt, evl, wrote⟩
  rw [hloop] at hshort
  have hloop2 : rangeLoop net 1048576 n (n.toNat + 1) part.length part
      = (pt, evl, wrote) := hloop
  have hshort2 : ¬(n = (pt.length : Int)) := fun h => hshort h.symm
  have hn1 : ¬(n = (-1 : Int)) := by omega
  have hstep1 : rangeFetchStep H net fs url p none ht
      = rangeFinalize H (if wrote then Fs.set fs (p ++ ".part") pt else fs) p none ht n
          (Event.probe url :: evl) := by
    simp [rangeFetchStep, hcl, htmp, hloop, hloop2]
  have hstep : (rangeFetchStep H net fs url p none ht).1 = Except.ok () ∧
      Fs.lookup (rangeFetchStep H net fs url p none ht).2.1 p = none := by
    rw [hstep1]
    cases wrote with
    | false =>
      have hpt : pt = part := by
        rcases rangeLoop_shape net (1024 * 1024) n (n.toNat + 1) part.length part with h | h
        · rw [hloop] at h
          simp at h
        · rw [hloop] at h
          exact h
      subst hpt
      simp [rangeFinalize, htmp, hshort2, hn1, hne]
    | true =>
      simp [rangeFinalize, lookup_set_self, lookup_set_ne _ _ _ _ htmpne, hshort2, hn1, hne]
  rcases hfetch : rangeFetchStep H net fs url p none ht with ⟨r, fs1, ev1⟩
  rw [hfetch] at hstep
  have hr : r = Except.ok () := hstep.1
  subst hr
  have hdis : dispatchStep H net fs url p none ht = (Except.ok (), fs1, ev1) := by
    simp only [dispatchStep, hg, hm, Bool.false_eq_true, if_false, eq_self_iff_true, if_true]
    exact hfetch
  have hlook : (Fs.lookup fs p).isSome = false := by
    rw [hne]
    rfl
  simp only [download_url, hlook, Bool.false_eq_true, if_false, hdis, check_hash]
  exact ⟨by trivial, hstep.2⟩

/-- Witness for C9 at a concrete input: `.part` holds one byte of five, the
only chunk request fails, and `download_url` still returns successfully with
no destination file. -/
theorem range_incomplete_silent_witness :
    pyStartswith urlMsd gdrivePre = false ∧ pyStartswith urlMsd msdPre = true ∧
    Fs.lookup [("/d/f.part", [9])] "/d/f" = none ∧
    Fs.lookup [("/d/f.part", [9])] ("/d/f" ++ ".part") = some [9] ∧
    (netProbe 5).contentLength = some 5 ∧ (0 : Int) ≤ 5 ∧
    ((rangeLoop (netProbe 5) (1024 * 1024) 5 ((5 : Int).toNat + 1)
        ([9] : Bytes).length [9]).1.length : Int) ≠ 5 ∧
    ((download_url Hc (netProbe 5) [("/d/f.part", [9])] urlMsd "/d/f" none "md5").1
        = Except.ok () ∧
      Fs.lookup (download_url Hc (netProbe 5) [("/d/f.part", [9])] urlMsd "/d/f"
          none "md5").2.1 "/d/f" = none) :=
  ⟨by decide, by decide, by decide, by decide, by decide, by decide, by decide,
   range_incomplete_silent Hc (netProbe 5) [("/d/f.part", [9])] urlMsd "/d/f" "md5" [9] 5
     (by decide) (by decide) (by decide) (by decide) (by decide) (by decide) (by decide)⟩

/-- Claim C1 counterexample: the final verification is NOT skipped when the
range fetcher produced the file.  Concrete run through the range branch with a
complete `.part` file and a matching expected hash: the internal gate
verifies `/d/f.part` (second conjunct) and, after the rename, `download_url`
verifies the very same bytes again at `/d/f` (third conjunct) — a redundant
second verification of the file the range fetcher produced. -/
theorem range_fetch_redundant_final_check :
    (download_url Hc (netProbe 2) [("/d/f.part", [7, 7])] urlMsd "/d/f"
        (some "m2") "md5").1 = Except.ok () ∧
    Event.hashCheck "/d/f.part"
      ∈ (download_url Hc (netProbe 2) [("/d/f.part", [7, 7])] urlMsd "/d/f"
          (some "m2") "md5").2.2 ∧
    Event.hashCheck "/d/f"
      ∈ (download_url Hc (netProbe 2) [("/d/f.part", [7, 7])] urlMsd "/d/f"
          (some "m2") "md5").2.2 := by
  decide

/-- Claim C1 (amended): after the dispatched fetcher completes without error —
whichever of the three it was, the range fetcher included — `download_url`
always performs the final hash verification of the destination file (when an
expected value is provided and the algorithm name is supported, the digest
computation of `filepath` is in the trace). -/
theorem final_check_always (H : HashImpl) (net : Net) (fs : Fs) (url p v ht : String)
    (hne : Fs.lookup fs p = none)
    (hok : (dispatchStep H net fs url p (some v) ht).1 = Except.ok ())
    (halg : pyLower ht = "md5" ∨ pyLower ht = "sha1") :
    Event.hashCheck p ∈ (download_url H net fs url p (some v) ht).2.2 := by
  have hlook : (Fs.lookup fs p).isSome = false := by
    rw [hne]
    rfl
  rcases hd : dispatchStep H net fs url p (some v) ht with ⟨r, fs1, ev1⟩
  rw [hd] at hok
  have hr : r = Except.ok () := hok
  subst hr
  have hev := check_hash_events_of_alg H fs1 p v ht halg
  rcases hch : check_hash H fs1 p (some v) ht with ⟨rc, ev2⟩
  rw [hch] at hev
  have hev2 : ev2 = [Event.hashCheck p] := hev
  simp only [download_url, hlook, Bool.false_eq_true, if_false, hd, hch]
  rcases rc with e | b
  · simp [hev2]
  · cases b <;> simp [hev2]

/-- Witness for the amended C1 at a concrete input: the range fetcher
completes successfully and the trace of the whole call still contains the
final digest computation of the destination. -/
theorem final_check_always_witness :
    Fs.lookup [("/d/f.part", [7, 7])] "/d/f" = none ∧
    (dispatchStep Hc (netProbe 2) [("/d/f.part", [7, 7])] urlMsd "/d/f"
        (some "m2") "md5").1 = Except.ok () ∧
    (pyLower "md5" = "md5" ∨ pyLower "md5" = "sha1") ∧
    Event.hashCheck "/d/f"
      ∈ (download_url Hc (netProbe 2) [("/d/f.part", [7, 7])] urlMsd "/d/f"
          (some "m2") "md5").2.2 :=
  ⟨by decide, by decide, Or.inl (by decide),
   final_check_always Hc (netProbe 2) [("/d/f.part", [7, 7])] urlMsd "/d/f" "m2" "md5"
     (by decide) (by decide) (Or.inl (by decide))⟩

/-- The result of a successful `download_url` call with a provided expected
hash passes `check_hash` of the destination on the resulting filesystem: in
the pre-existing-file branch because that is the branch condition, in the
fetch branches because the final verification was the last gate before
returning. -/
theorem download_url_ok_final_check (H : HashImpl) (net : Net) (fs : Fs)
    (url p v ht : String)
    (h : (download_url H net fs url p (some v) ht).1 = Except.ok ()) :
    (check_hash H (download_url H net fs url p (some v) ht).2.1 p (some v) ht).1
      = Except.ok true := by
  by_cases hex : (Fs.lookup fs p).isSome = true
  · rcases hch : check_hash H fs p (some v) ht with ⟨rc, ev⟩
    rcases rc with e | b
    · simp [download_url, hex, hch] at h
    · cases b
      · simp [download_url, hex, hch] at h
      · simp only [download_url, hex, eq_self_iff_true, if_true, hch]
  · have hex2 : (Fs.lookup fs p).isSome = false := by
      cases hx : (Fs.lookup fs p).isSome
      · rfl
      · exact absurd hx hex
    rcases hd : dispatchStep H net fs url p (some v) ht with ⟨r, fs1, ev1⟩
    rcases r with e | u
    · simp [download_url, hex2, hd] at h
    · rcases hch : check_hash H fs1 p (some v) ht with ⟨rc, ev2⟩
      rcases rc with e | b
      · simp [download_url, hex2, hd, hch] at h
      · cases b
        · simp [download_url, hex2, hd, hch] at h
        · simp only [download_url, hex2, Bool.false_eq_true, if_false, hd, hch]

/-- Claim C2: the pre-existing-destination behaviour of `download_url` and the
resulting idempotence.  (i) If the destination exists and its verification
fails, the existing-file hash error is raised, nothing else happens.
(ii) If the destination exists and verification passes, the call returns
immediately: unchanged filesystem, trace of the verification only, and no
network event.  (iii) If a call with a provided expected hash succeeds, a
second call on the resulting filesystem — under ANY network oracle —
succeeds, changes nothing, and performs no network access: it short-circuits
through the existing-file check. -/
theorem download_url_existing_short_circuit :
    (∀ (H : HashImpl) (net : Net) (fs : Fs) (url p : String) (hv : Option String)
        (ht : String) (c : Bytes),
      Fs.lookup fs p = some c →
      (check_hash H fs p hv ht).1 = Except.ok false →
      download_url H net fs url p hv ht
        = (Except.error Err.existingFileHashFailed, fs, (check_hash H fs p hv ht).2)) ∧
    (∀ (H : HashImpl) (net : Net) (fs : Fs) (url p : String) (hv : Option String)
        (ht : String) (c : Bytes),
      Fs.lookup fs p = some c →
      (check_hash H fs p hv ht).1 = Except.ok true →
      download_url H net fs url p hv ht = (Except.ok (), fs, (check_hash H fs p hv ht).2) ∧
      ∀ e ∈ (download_url H net fs url p hv ht).2.2, e.isNetwork = false) ∧
    (∀ (H : HashImpl) (net net2 : Net) (fs : Fs) (url p v ht : String),
      (download_url H net fs url p (some v) ht).1 = Except.ok () →
      (download_url H net2 (download_url H net fs url p (some v) ht).2.1
          url p (some v) ht).1 = Except.ok () ∧
      (download_url H net2 (download_url H net fs url p (some v) ht).2.1
          url p (some v) ht).2.1 = (download_url H net fs url p (some v) ht).2.1 ∧
      ∀ e ∈ (download_url H net2 (download_url H net fs url p (some v) ht).2.1
          url p (some v) ht).2.2, e.isNetwork = false) := by
  refine ⟨?_, ?_, ?_⟩
  · intro H net fs url p hv ht c hlk hb
    have hex : (Fs.lookup fs p).isSome = true := by
      rw [hlk]
      rfl
    rcases hch : check_hash H fs p hv ht with ⟨rc, ev⟩
    rw [hch] at hb
    have hrc : rc = Except.ok false := hb
    subst hrc
    have hud : download_url H net fs url p hv ht
        = (Except.error Err.existingFileHashFailed, fs, ev) := by
      simp only [download_url, hex, eq_self_iff_true, if_true, hch]
    rw [hud]
  · intro H net fs url p hv ht c hlk hb
    have hex : (Fs.lookup fs p).isSome = true := by
      rw [hlk]
      rfl
    rcases hch : check_hash H fs p hv ht with ⟨rc, ev⟩
    rw [hch] at hb
    have hrc : rc = Except.ok true := hb
    subst hrc
    have hud : download_url H net fs url p hv ht = (Except.ok (), fs, ev) := by
      simp only [download_url, hex, eq_self_iff_true, if_true, hch]
    constructor
    · rw [hud]
    · intro e he
      rw [hud] at he
      have hnn := check_hash_no_network H fs p hv ht
      rw [hch] at hnn
      exact hnn e he
  · intro H net net2 fs url p v ht h1
    have hcheck := download_url_ok_final_check H net fs url p v ht h1
    generalize hgen : (download_url H net fs url p (some v) ht).2.1 = fs1 at hcheck ⊢
    have hex : (Fs.lookup fs1 p).isSome = true :=
      check_hash_true_exists H fs1 p v ht hcheck
    have hnn := check_hash_no_network H fs1 p (some v) ht
    rcases hch : check_hash H fs1 p (some v) ht with ⟨rc, ev⟩
    rw [hch] at hcheck
    have hrc : rc = Except.ok true := hcheck
    subst hrc
    rw [hch] at hnn
    have hud2 : download_url H net2 fs1 url p (some v) ht = (Except.ok (), fs1, ev) := by
      simp only [download_url, hex, eq_self_iff_true, if_true, hch]
    refine ⟨by rw [hud2], by rw [hud2], ?_⟩
    intro e he
    rw [hud2] at he
    exact hnn e he

/-- Witness for C2 at concrete inputs: a failing existing file raises, a
passing existing file short-circuits, and after a successful plain download
the second call (under a dead network) succeeds with no network access. -/
theorem download_url_existing_short_circuit_witness :
    (Fs.lookup [("/d/f", [1])] "/d/f" = some [1] ∧
      (check_hash Hc [("/d/f", [1])] "/d/f" (some "bad") "md5").1 = Except.ok false ∧
      download_url Hc netNone [("/d/f", [1])] urlPlain "/d/f" (some "bad") "md5"
        = (Except.error Err.existingFileHashFailed, [("/d/f", [1])],
            (check_hash Hc [("/d/f", [1])] "/d/f" (some "bad") "md5").2)) ∧
    (Fs.lookup [("/d/f", [1])] "/d/f" = some [1] ∧
      (check_hash Hc [("/d/f", [1])] "/d/f" (some "m1") "md5").1 = Except.ok true ∧
      (download_url Hc netNone [("/d/f", [1])] urlPlain "/d/f" (some "m1") "md5"
        = (Except.ok (), [("/d/f", [1])],
            (check_hash Hc [("/d/f", [1])] "/d/f" (some "m1") "md5").2) ∧
      ∀ e ∈ (download_url Hc netNone [("/d/f", [1])] urlPlain "/d/f"
          (some "m1") "md5").2.2, e.isNetwork = false)) ∧
    ((download_url Hc (netRetrieve [1, 2]) [] urlPlain "/d/p" (some "m2") "md5").1
        = Except.ok () ∧
      ((download_url Hc netNone
          (download_url Hc (netRetrieve [1, 2]) [] urlPlain "/d/p" (some "m2") "md5").2.1
          urlPlain "/d/p" (some "m2") "md5").1 = Except.ok () ∧
       (download_url Hc netNone
          (download_url Hc (netRetrieve [1, 2]) [] urlPlain "/d/p" (some "m2") "md5").2.1
          urlPlain "/d/p" (some "m2") "md5").2.1
         = (download_url Hc (netRetrieve [1, 2]) [] urlPlain "/d/p"
             (some "m2") "md5").2.1 ∧
       ∀ e ∈ (download_url Hc netNone
          (download_url Hc (netRetrieve [1, 2]) [] urlPlain "/d/p" (some "m2") "md5").2.1
          urlPlain "/d/p" (some "m2") "md5").2.2, e.isNetwork = false)) :=
  ⟨⟨by decide, by decide,
    download_url_existing_short_circuit.1 Hc netNone [("/d/f", [1])] urlPlain "/d/f"
      (some "bad") "md5" [1] (by decide) (by decide)⟩,
   ⟨by decide, by decide,
    download_url_existing_short_circuit.2.1 Hc netNone [("/d/f", [1])] urlPlain "/d/f"
      (some "m1") "md5" [1] (by decide) (by decide)⟩,
   ⟨by decide,
    download_url_existing_short_circuit.2.2 Hc (netRetrieve [1, 2]) netNone [] urlPlain
      "/d/p" "m2" "md5" (by decide)⟩⟩

end MonaiApps
